import Mathlib

/-!
Verification of the ML data pipeline of sci-investments-backend
(src/ml/data.py, src/ml/train_lstm.py, src/ml/predict_lstm.py).

Shallow embedding conventions:
 - a float cell of the dataframe is a `Val`: a finite rational, NaN (the
   missing-value marker pandas uses), or a signed infinity; exact float
   rounding is abstracted by working in ℚ;
 - `np.sqrt` (inside `np.nanstd`) is an abstract parameter `sqrtR : ℚ → ℚ`
   of the standardizer; theorems that depend on its value state the needed
   facts (such as `sqrtR 0 = 0`) as hypotheses;
 - ticker identifiers are naturals, parsed dates are integers (both only
   need a linear order);
 - the trained network, `torch.sigmoid` and the per-epoch validation
   accuracy are opaque parameters (`net`, `sigmoid`, `oracle`), matching the
   spec, which treats the model as an external capability.
-/

/-- Value of one dataframe cell after numeric coercion: a finite rational,
NaN (missing), or a signed infinity. -/
inductive Val where
  | fl (q : Rat)
  | nan
  | inf
  | ninf
deriving DecidableEq, Repr

/-- One observation row: ticker id, parsed date, the feature cells and the
`y_up` label cell. -/
structure Row where
  ticker : Nat
  date : Int
  feats : List Val
  label : Val
deriving DecidableEq, Repr

instance : Inhabited Row := ⟨⟨0, 0, [], .nan⟩⟩

/-- The ten feature column names of data.py (`FEATURES`). -/
def FEATURES : List String :=
  ["Score", "Ts", "avgTs", "compVolPct", "compSentPct",
   "TVolComp", "MVolComp", "close", "volume", "ret1"]

/-- Number of feature columns. -/
def numFeatures : Nat := 10

/-- True exactly on the missing-value marker (what `pd.isna` sees). -/
def Val.isNanB : Val → Bool
  | .nan => true
  | _ => false

/-- Strict lexicographic order on the sort key (ticker asc, date asc). -/
def keyLt (a b : Row) : Prop :=
  a.ticker < b.ticker ∨ (a.ticker = b.ticker ∧ a.date < b.date)

/-- Lexicographic order (ticker asc, date asc) used by
`df.sort_values(["ticker","date"])`. -/
def keyLe (a b : Row) : Prop :=
  a.ticker < b.ticker ∨ (a.ticker = b.ticker ∧ a.date ≤ b.date)

instance (a b : Row) : Decidable (keyLt a b) := by
  unfold keyLt; exact inferInstance

instance (a b : Row) : Decidable (keyLe a b) := by
  unfold keyLe; exact inferInstance

/-- Stable insertion into a key-sorted list: the new row goes after every
row already present whose key is less than or equal to its own (pandas
multi-column `sort_values` is a stable lexsort). -/
def insertRow (r : Row) : List Row → List Row
  | [] => [r]
  | x :: xs => if keyLt r x then r :: x :: xs else x :: insertRow r xs

/-- Stable sort by (ticker asc, date asc); rows are folded in their original
order, so ties keep their input order. -/
def sortRows (l : List Row) : List Row :=
  l.foldl (fun acc r => insertRow r acc) []

/-- Ticker filter of load_dataset: `if tickers: df = df[df["ticker"].isin(tickers)]`.
No subset, or an empty (falsy) subset list, keeps every row. -/
def keepTicker (tickers : Option (List Nat)) (r : Row) : Bool :=
  match tickers with
  | none => true
  | some [] => true
  | some ts => ts.contains r.ticker

/-- Rows surviving load_dataset before the sort: `dropna(subset=[LABEL])`
then the optional ticker filter, in input order. -/
def preFiltered (tickers : Option (List Nat)) (rows : List Row) : List Row :=
  (rows.filter fun r => ! r.label.isNanB).filter (keepTicker tickers)

/-- load_dataset (data.py lines 13-24): drop rows lacking a label, apply
the optional ticker filter, then sort by (ticker, date). Date parsing and
per-column numeric coercion are identities here: cells are already `Val`
and coercion neither reorders nor drops rows. -/
def loadDataset (tickers : Option (List Nat)) (rows : List Row) : List Row :=
  sortRows (preFiltered tickers rows)

/-- Python `int(len(df) * frac)`: truncation toward zero of the exact
product (floor for a nonnegative product, ceiling for a negative one). The
result is a signed integer: nothing in the code keeps it within range. -/
def pyCut (n : Nat) (frac : Rat) : Int :=
  if (n : Rat) * frac < 0 then Int.ceil ((n : Rat) * frac)
  else Int.floor ((n : Rat) * frac)

/-- Python slice-bound resolution over a length-n sequence: a negative
bound counts from the end (and is clamped below at 0), a nonnegative bound
is clamped above at n. -/
def sliceIdx (n : Nat) (i : Int) : Nat :=
  if i < 0 then ((n : Int) + i).toNat else min i.toNat n

/-- The row position at which `df.iloc` actually cuts for
`int(len(df) * frac)`: the truncated product put through Python slice-bound
resolution. -/
def cutOf (n : Nat) (frac : Rat) : Nat :=
  sliceIdx n (pyCut n frac)

/-- time_split (data.py lines 26-30): positional slices
`df.iloc[:cut1], df.iloc[cut1:cut2], df.iloc[cut2:]`, with Python slice
semantics (end-relative negative cuts, bounds clamped to the list). -/
def timeSplit (df : List Row) (trainFrac valFrac : Rat) :
    List Row × List Row × List Row :=
  let cut1 := cutOf df.length trainFrac
  let cut2 := cutOf df.length (trainFrac + valFrac)
  (df.take cut1, (df.take cut2).drop cut1, df.drop cut2)

/-- Replace the two infinities with NaN
(`x.replace([np.inf, -np.inf], np.nan)`). -/
def Val.cleanInf : Val → Val
  | .inf => .nan
  | .ninf => .nan
  | v => v

/-- Finite payload of a cell, if any. -/
def Val.toRatQ : Val → Option Rat
  | .fl q => some q
  | _ => none

/-- Cells of one feature column over a split, infinities already replaced
by NaN as fit_standardizer does. -/
def columnVals (train : List Row) (c : Nat) : List Val :=
  train.map fun r => (r.feats.getD c .nan).cleanInf

/-- The finite values a nan-aggregation actually aggregates. -/
def finiteVals (xs : List Val) : List Rat :=
  xs.filterMap Val.toRatQ

/-- np.nanmean: mean of the non-NaN values, NaN when there are none. -/
def nanmeanVal (xs : List Val) : Val :=
  let v := finiteVals xs
  if v.length = 0 then .nan else .fl (v.sum / (v.length : Rat))

/-- np.nanstd (population std, ddof = 0): square root of the mean squared
deviation of the non-NaN values, NaN when there are none. -/
def nanstdVal (sqrtR : Rat → Rat) (xs : List Val) : Val :=
  let v := finiteVals xs
  if v.length = 0 then .nan
  else
    let mu := v.sum / (v.length : Rat)
    .fl (sqrtR (((v.map fun q => (q - mu) ^ 2).sum) / (v.length : Rat)))

/-- The std recorded by fit_standardizer:
`sd = float(np.nanstd(x)) if np.nanstd(x) > 1e-12 else 1.0`. A NaN std
(empty column) fails the comparison, so it also yields 1.0. -/
def stdFloor (sqrtR : Rat → Rat) (xs : List Val) : Rat :=
  match nanstdVal sqrtR xs with
  | .fl s => if 1 / 1000000000000 < s then s else 1
  | _ => 1

/-- Per-feature standardization statistics (scaler.json entries). The mean
can be NaN (an all-missing train column); the recorded std is always an
ordinary number by construction of `stdFloor`. -/
structure FeatStats where
  mean : Val
  std : Rat
deriving DecidableEq, Repr

/-- fit_standardizer (data.py lines 32-39): per feature column of the train
split, the nan-mean and the floored nan-std. -/
def fitStandardizer (sqrtR : Rat → Rat) (train : List Row) : List FeatStats :=
  (List.range numFeatures).map fun c =>
    { mean := nanmeanVal (columnVals train c)
      std := stdFloor sqrtR (columnVals train c) }

/-- IEEE subtraction on cells, as the vectorized `out[c] - mu` computes it. -/
def Val.sub : Val → Val → Val
  | .nan, _ => .nan
  | _, .nan => .nan
  | .inf, .inf => .nan
  | .inf, _ => .inf
  | .ninf, .ninf => .nan
  | .ninf, _ => .ninf
  | .fl _, .inf => .ninf
  | .fl _, .ninf => .inf
  | .fl a, .fl b => .fl (a - b)

/-- IEEE division of a cell by a finite float, as the vectorized `/ sd`
computes it (numpy yields ±inf or NaN on a zero divisor, no exception). -/
def Val.divR : Val → Rat → Val
  | .nan, _ => .nan
  | .inf, d => if d < 0 then .ninf else .inf
  | .ninf, d => if d < 0 then .inf else .ninf
  | .fl a, d =>
    if d = 0 then (if a = 0 then .nan else if 0 < a then .inf else .ninf)
    else .fl (a / d)

/-- The recovery step of apply_standardizer:
`replace([np.inf, -np.inf], 0).fillna(0)`. -/
def Val.cleanup : Val → Val
  | .fl q => .fl q
  | _ => .fl 0

/-- Default statistics entry (never reached by the claims, which supply a
stats list covering every feature column). -/
def dStat : FeatStats := { mean := .nan, std := 1 }

/-- apply_standardizer (data.py lines 41-47): per feature column,
`(value - mean) / std` followed by the replace/fillna recovery; every
non-feature column of the row is kept as it is. -/
def applyStandardizer (df : List Row) (stats : List FeatStats) : List Row :=
  df.map fun r =>
    { r with
      feats := (List.range numFeatures).map fun c =>
        (((r.feats.getD c .nan).sub (stats.getD c dStat).mean).divR
          (stats.getD c dStat).std).cleanup }

/-- Sorted duplicate-free insertion of a ticker key. -/
def insertKey (k : Nat) : List Nat → List Nat
  | [] => [k]
  | x :: xs =>
    if k < x then k :: x :: xs
    else if k = x then x :: xs
    else x :: insertKey k xs

/-- The distinct ticker keys in ascending order: the group keys
`df.groupby("ticker")` iterates. -/
def tickerKeysSorted (df : List Row) : List Nat :=
  df.foldl (fun ks r => insertKey r.ticker ks) []

/-- Rows of one ticker group, in dataframe order. -/
def groupOf (df : List Row) (k : Nat) : List Row :=
  df.filter fun r => r.ticker == k

/-- One emitted sequence: the window of per-row feature vectors and the
label of the window's last row. The `astype(np.float32)` copies are
deterministic per-element casts, modelled as the identity in ℚ. -/
abbrev Seqe := List (List Val) × Val

/-- Per-group loop of make_sequences (data.py lines 60-62): for t from
`seq_len - 1` to `len(g) - 1`, the window `feats[t-seq_len+1 : t+1]` paired
with `labels[t]`. -/
def makeSequencesGroup (seqLen : Nat) (g : List Row) : List Seqe :=
  (List.range' (seqLen - 1) (g.length - (seqLen - 1))).map fun t =>
    (((g.drop (t - (seqLen - 1))).take seqLen).map Row.feats,
     (g.getD t default).label)

/-- make_sequences (data.py lines 49-65): groups in ascending ticker order,
each contributing its windows in increasing t. -/
def makeSequences (df : List Row) (seqLen : Nat) : List Seqe :=
  (tickerKeysSorted df).flatMap fun k => makeSequencesGroup seqLen (groupOf df k)

/-- Python end-relative indexing `labels[t]` into a row list: a negative t
counts from the end; none is an IndexError. -/
def pyIndex (l : List Row) (t : Int) : Option Row :=
  if t < 0 then
    (if t + (l.length : Int) < 0 then none
     else l[(t + (l.length : Int)).toNat]?)
  else l[t.toNat]?

/-- Python row slice `g[a:b]` with arbitrary integer bounds. -/
def pySliceRows (l : List Row) (a b : Int) : List Row :=
  (l.take (sliceIdx l.length b)).drop (sliceIdx l.length a)

/-- Python `range(lo, hi)` for an integer lower bound. -/
def intRange (lo : Int) (hi : Nat) : List Int :=
  (List.range (((hi : Int) - lo).toNat)).map fun k : Nat => lo + (k : Int)

/-- Body of the per-group loop of make_sequences run over a list of t
values with its true integer-typed window length: each step reads the
window `feats[t-seq_len+1 : t+1]` and the label `labels[t]`; none is the
IndexError a label access out of range would raise. -/
def seqLoop (g : List Row) (seqLen : Int) : List Int → Option (List Seqe)
  | [] => some []
  | t :: ts =>
    match pyIndex g t, seqLoop g seqLen ts with
    | some r, some rest =>
        some (((pySliceRows g (t - seqLen + 1) (t + 1)).map Row.feats,
               r.label) :: rest)
    | _, _ => none

/-- Per-group loop of make_sequences at its true CLI type: `--seq-len` is
an arbitrary int and `range(seq_len - 1, len(g))` starts below zero when it
is not positive. `makeSequencesGroup` is this map at a positive window
length, where every index is in range. -/
def makeSequencesGroupI (seqLen : Int) (g : List Row) : Option (List Seqe) :=
  seqLoop g seqLen (intRange (seqLen - 1) g.length)

/-- Early-stopping loop body of train_lstm.py lines 104-118, run against a
list of prospective per-epoch validation accuracies: on
`va_acc > best_val_acc + 1e-4` record the new best and reset the patience
counter, otherwise decrement it and break once it is not positive. Returns
how many epochs ran and whether the loop broke early. -/
def esRun (patienceMax : Int) : List Rat → Rat → Int → Nat × Bool
  | [], _, _ => (0, false)
  | a :: rest, best, pl =>
    if best + 1 / 10000 < a then
      let r := esRun patienceMax rest a patienceMax
      (r.1 + 1, r.2)
    else if pl - 1 ≤ 0 then (1, true)
    else
      let r := esRun patienceMax rest best (pl - 1)
      (r.1 + 1, r.2)

/-- The loop of train_lstm.py started as the source starts it:
`best_val_acc, patience_left = 0.0, args.patience`. -/
def earlyStopRun (accs : List Rat) (patience : Int) : Nat × Bool :=
  esRun patience accs 0 patience

/-- The one data-sufficiency failure of train_lstm.py (line 89, a
RuntimeError; the spec names it InsufficientDataError). -/
inductive TrainErr where
  | insufficientData
deriving DecidableEq, Repr

/-- Outcome of a completed training run (the quantities the claims
observe). -/
structure TrainResult where
  epochsRun : Nat
  earlyStopped : Bool
  nTrain : Nat
  nVal : Nat
  nTest : Nat
deriving DecidableEq, Repr

/-- Data preparation of train_lstm.py main (lines 69-86): load, time-split
with the fixed fractions 0.7/0.15, fit the standardizer on the train slice
only, apply it to all three slices, then window each slice. -/
def trainPrepared (sqrtR : Rat → Rat) (seqLen : Nat)
    (tickers : Option (List Nat)) (rows : List Row) :
    List Seqe × List Seqe × List Seqe :=
  let df := loadDataset tickers rows
  let parts := timeSplit df (7 / 10) (3 / 20)
  let stats := fitStandardizer sqrtR parts.1
  (makeSequences (applyStandardizer parts.1 stats) seqLen,
   makeSequences (applyStandardizer parts.2.1 stats) seqLen,
   makeSequences (applyStandardizer parts.2.2 stats) seqLen)

/-- train_lstm.py main (lines 69-123) at the granularity the claims need:
the insufficient-data check of lines 88-89 precedes the epoch loop; the
loop consumes the opaque per-epoch validation accuracies `oracle`. -/
def trainMain (sqrtR : Rat → Rat) (oracle : Nat → Rat) (seqLen : Nat)
    (patience : Int) (epochs : Nat) (tickers : Option (List Nat))
    (rows : List Row) : Except TrainErr TrainResult :=
  let p := trainPrepared sqrtR seqLen tickers rows
  if p.1.length = 0 ∨ p.2.1.length = 0 then .error .insufficientData
  else
    let accs := (List.range epochs).map fun e => oracle (e + 1)
    let r := earlyStopRun accs patience
    .ok { epochsRun := r.1, earlyStopped := r.2,
          nTrain := p.1.length, nVal := p.2.1.length, nTest := p.2.2.length }

/-- The train slice the pipeline fits on (train_lstm.py line 72). -/
def trainSplitOf (df : List Row) : List Row :=
  (timeSplit df (7 / 10) (3 / 20)).1

/-- The fitted statistics as a function of the whole loaded dataset
(train_lstm.py line 75). -/
def trainStats (sqrtR : Rat → Rat) (df : List Row) : List FeatStats :=
  fitStandardizer sqrtR (trainSplitOf df)

/-- predict_lstm.py line 20: `seq_len = meta.get("seq_len", args.seq_len)`. -/
def chosenSeqLen (metaSeqLen : Option Nat) (argSeqLen : Nat) : Nat :=
  metaSeqLen.getD argSeqLen

/-- Outcome of a prediction run: the no-sequences report or the scored
probabilities with their thresholded binary predictions. -/
inductive PredOut where
  | noSequences
  | scored (probs : List Rat) (preds : List Bool)
deriving DecidableEq, Repr

/-- predict_lstm.py main (lines 16-45): rebuild the pipeline with the
persisted stats and the metadata seq_len (falling back to the operator
value only when the metadata lacks one), then score every sequence; the
network forward pass and sigmoid are opaque parameters. -/
def predictMain (sigmoid : Rat → Rat) (net : List Seqe → List Rat)
    (metaSeqLen : Option Nat) (stats : List FeatStats)
    (tickers : Option (List Nat)) (argSeqLen : Nat) (rows : List Row) :
    PredOut :=
  let df := applyStandardizer (loadDataset tickers rows) stats
  let X := makeSequences df (chosenSeqLen metaSeqLen argSeqLen)
  if X.length = 0 then .noSequences
  else
    let probs := (net X).map sigmoid
    .scored probs (probs.map fun p => decide (1 / 2 ≤ p))

/-! ### Concrete data for scenarios, witnesses and counterexamples -/

/-- Row of ticker 0 at day i with all-zero features and label 1. -/
def mkRowA (i : Nat) : Row := ⟨0, (i : Int), List.replicate 10 (.fl 0), .fl 1⟩

/-- Row of ticker 1 at day i with all-zero features and label 1. -/
def mkRowB (i : Nat) : Row := ⟨1, (i : Int), List.replicate 10 (.fl 0), .fl 1⟩

/-- Scenario A dataset: 2 tickers with 50 rows each. -/
def scenarioAB : List Row :=
  (List.range 50).map mkRowA ++ (List.range 50).map mkRowB

/-- Four-row dataset used to exercise time_split on invalid fractions. -/
def rowsFour : List Row := (List.range 4).map mkRowA

/-- Ten-row dataset used to instantiate the splitter contract. -/
def wdfTen : List Row :=
  (List.range 10).map fun i => ⟨0, (i : Int), List.replicate 10 (.fl 0), .fl 1⟩

/-- Row with every feature cell equal to v. -/
def wRowC (i : Nat) (v : Rat) : Row :=
  ⟨0, (i : Int), List.replicate 10 (.fl v), .fl 1⟩

/-- Train row whose features are constant 5.0. -/
def cRow5 : Row := ⟨0, 0, List.replicate 10 (.fl 5), .fl 1⟩

/-- Validation row whose first feature is 6.0 rather than 5.0. -/
def cRow6 : Row := ⟨0, 1, Val.fl 6 :: List.replicate 9 (.fl 5), .fl 1⟩

/-- Row with every feature cell equal to 1.0. -/
def wRowOne : Row := ⟨0, 0, List.replicate 10 (.fl 1), .fl 1⟩

/-- Statistics with mean 0 and std 1 for every feature. -/
def wStatsOne : List FeatStats := List.replicate 10 ⟨.fl 0, 1⟩

/-! ### Specification predicates the claim theorems instantiate -/

/-- Boolean test for one sort key value, used to state sort stability. -/
def keyP (t : Nat) (d : Int) (r : Row) : Bool :=
  decide (r.ticker = t ∧ r.date = d)

/-- Splitter contract of the spec for one dataset and fraction pair: the
three slices are the positional segments at the floor cuts, their lengths
are determined by the cuts, they partition the dataset in order, and the
slice lengths depend on the dataset only through its row count. -/
def timeSplitSpec (df : List Row) (tf vf : Rat) : Prop :=
    (timeSplit df tf vf).1 = df.take (cutOf df.length tf)
  ∧ (timeSplit df tf vf).2.1
      = (df.drop (cutOf df.length tf)).take
          (cutOf df.length (tf + vf) - cutOf df.length tf)
  ∧ (timeSplit df tf vf).2.2 = df.drop (cutOf df.length (tf + vf))
  ∧ (timeSplit df tf vf).1.length = cutOf df.length tf
  ∧ (timeSplit df tf vf).2.1.length
      = cutOf df.length (tf + vf) - cutOf df.length tf
  ∧ (timeSplit df tf vf).2.2.length = df.length - cutOf df.length (tf + vf)
  ∧ (timeSplit df tf vf).1.length + (timeSplit df tf vf).2.1.length
      + (timeSplit df tf vf).2.2.length = df.length
  ∧ (timeSplit df tf vf).1 ++ (timeSplit df tf vf).2.1
      ++ (timeSplit df tf vf).2.2 = df
  ∧ ∀ df' : List Row, df'.length = df.length →
      (timeSplit df' tf vf).1.length = (timeSplit df tf vf).1.length
      ∧ (timeSplit df' tf vf).2.1.length = (timeSplit df tf vf).2.1.length
      ∧ (timeSplit df' tf vf).2.2.length = (timeSplit df tf vf).2.2.length

/-- SequenceBuilder contract of the spec for one group and window length:
exactly `length + 1 - S` sequences (the truncated-subtraction form of
`max(0, L - S + 1)`), and the i-th sequence carries the feature window of
rows `[i .. i+S-1]` and the label of row `S-1+i`. -/
def seqBuilderSpec (S : Nat) (g : List Row) : Prop :=
    (makeSequencesGroup S g).length = g.length + 1 - S
  ∧ ∀ i, i < g.length + 1 - S →
      ∃ r : Row, g[S - 1 + i]? = some r ∧
        (makeSequencesGroup S g)[i]?
          = some (((g.drop i).take S).map Row.feats, r.label)

/-- Standardizer apply contract of the spec at one row: the output row
exists (apply is total and length-preserving), keeps the non-feature
columns, and each feature cell is `(value - mean)/std` put through the
replace/fillna recovery, hence always finite, with missing inputs mapped
to 0. -/
def applySpec (df : List Row) (stats : List FeatStats) (j : Nat) (r : Row) :
    Prop :=
    (applyStandardizer df stats).length = df.length
  ∧ ∃ r', (applyStandardizer df stats)[j]? = some r'
      ∧ r'.ticker = r.ticker ∧ r'.date = r.date ∧ r'.label = r.label
      ∧ r'.feats.length = numFeatures
      ∧ ∀ c, c < numFeatures →
          r'.feats[c]? = some (Val.cleanup (Val.divR
              (Val.sub (r.feats.getD c .nan) (stats.getD c dStat).mean)
              (stats.getD c dStat).std))
          ∧ (∃ q : Rat, r'.feats[c]? = some (.fl q))
          ∧ (r.feats.getD c .nan = .nan → r'.feats[c]? = some (.fl 0))

/-- Scenario B contract, amended to what the code does on validation and
test rows: a feature column constant at 5.0 over the train split fits to
mean 5.0 and floored std 1.0; applying those stats sends the feature to
0.0 in every train row, while in a row of any slice a finite feature value
v standardizes to v - 5.0 (0.0 for v = 5.0) and a missing or infinite cell
is recovered to 0.0 by the replace/fillna step. -/
def constFeatureSpec (sqrtR : Rat → Rat) (train : List Row) (c : Nat) : Prop :=
    (fitStandardizer sqrtR train)[c]? = some ⟨.fl 5, 1⟩
  ∧ (∀ (j : Nat) (r : Row), train[j]? = some r →
      ∃ r', (applyStandardizer train (fitStandardizer sqrtR train))[j]? = some r'
        ∧ r'.feats[c]? = some (.fl 0))
  ∧ (∀ (df : List Row) (j : Nat) (r : Row), df[j]? = some r →
      r.feats.getD c .nan = .fl 5 →
      ∃ r', (applyStandardizer df (fitStandardizer sqrtR train))[j]? = some r'
        ∧ r'.feats[c]? = some (.fl 0))
  ∧ (∀ (df : List Row) (j : Nat) (r : Row) (v : Rat), df[j]? = some r →
      r.feats.getD c .nan = .fl v →
      ∃ r', (applyStandardizer df (fitStandardizer sqrtR train))[j]? = some r'
        ∧ r'.feats[c]? = some (.fl (v - 5)))
  ∧ (∀ (df : List Row) (j : Nat) (r : Row), df[j]? = some r →
      (r.feats.getD c .nan = .nan ∨ r.feats.getD c .nan = .inf
        ∨ r.feats.getD c .nan = .ninf) →
      ∃ r', (applyStandardizer df (fitStandardizer sqrtR train))[j]? = some r'
        ∧ r'.feats[c]? = some (.fl 0))

/-! ### Helper lemmas -/

theorem lem_keyLe_of_not_keyLt {a b : Row} (h : ¬ keyLt a b) : keyLe b a := by
  unfold keyLt at h
  unfold keyLe
  omega

theorem lem_keyLt_le_trans {a b c : Row} (h1 : keyLt a b) (h2 : keyLe b c) :
    keyLt a c := by
  unfold keyLt at h1 ⊢
  unfold keyLe at h2
  omega

theorem lem_keyLt_keyP {t : Nat} {d : Int} {a b : Row} (h : keyLt a b)
    (ha : keyP t d a = true) : keyP t d b = false := by
  unfold keyP at ha ⊢
  unfold keyLt at h
  simp only [decide_eq_true_eq] at ha
  simp only [decide_eq_false_iff_not]
  omega

theorem lem_mem_insertRow {a r : Row} {l : List Row} :
    a ∈ insertRow r l ↔ a = r ∨ a ∈ l := by
  induction l with
  | nil => simp [insertRow]
  | cons x xs ih =>
    unfold insertRow
    by_cases h : keyLt r x
    · simp [h]
    · simp [h, ih]
      tauto

theorem lem_insertRow_pairwise {r : Row} {l : List Row}
    (h : l.Pairwise keyLe) : (insertRow r l).Pairwise keyLe := by
  induction l with
  | nil => simp [insertRow]
  | cons x xs ih =>
    rcases List.pairwise_cons.mp h with ⟨hx, hxs⟩
    unfold insertRow
    by_cases hlt : keyLt r x
    · rw [if_pos hlt]
      refine List.pairwise_cons.mpr ⟨?_, h⟩
      intro y hy
      rcases List.mem_cons.mp hy with rfl | hy'
      · exact Or.elim hlt (fun h1 => Or.inl h1) fun h2 =>
          Or.inr ⟨h2.1, le_of_lt h2.2⟩
      · exact lem_keyLt_le_trans hlt (hx y hy') |>.elim (fun h1 => Or.inl h1)
          fun h2 => Or.inr ⟨h2.1, le_of_lt h2.2⟩
    · rw [if_neg hlt]
      refine List.pairwise_cons.mpr ⟨?_, ih hxs⟩
      intro y hy
      rcases lem_mem_insertRow.mp hy with rfl | hy'
      · exact lem_keyLe_of_not_keyLt hlt
      · exact hx y hy'

theorem lem_filter_insertRow (t : Nat) (d : Int) {r : Row} {l : List Row}
    (h : l.Pairwise keyLe) :
    (insertRow r l).filter (keyP t d)
      = l.filter (keyP t d) ++ (if keyP t d r then [r] else []) := by
  induction l with
  | nil =>
    unfold insertRow
    cases hr : keyP t d r <;> simp [List.filter, hr]
  | cons x xs ih =>
    rcases List.pairwise_cons.mp h with ⟨hx, hxs⟩
    unfold insertRow
    by_cases hlt : keyLt r x
    · rw [if_pos hlt]
      cases hr : keyP t d r with
      | false => simp [List.filter_cons, hr]
      | true =>
        have hnil : (x :: xs).filter (keyP t d) = [] := by
          apply List.filter_eq_nil_iff.mpr
          intro y hy
          have hy' : keyLe x y ∨ y = x := by
            rcases List.mem_cons.mp hy with rfl | hm
            · exact Or.inr rfl
            · exact Or.inl (hx y hm)
          have hry : keyLt r y := by
            rcases hy' with hle | rfl
            · exact lem_keyLt_le_trans hlt hle
            · exact hlt
          simp [lem_keyLt_keyP hry hr]
        rw [hnil]
        simp [List.filter_cons, hr, hnil]
    · rw [if_neg hlt]
      rw [List.filter_cons, List.filter_cons, ih hxs]
      cases hx' : keyP t d x <;> simp

theorem lem_sortRows_go_pairwise (l : List Row) :
    ∀ acc : List Row, acc.Pairwise keyLe →
      (l.foldl (fun acc r => insertRow r acc) acc).Pairwise keyLe := by
  induction l with
  | nil => intro acc h; exact h
  | cons r l ih =>
    intro acc h
    exact ih (insertRow r acc) (lem_insertRow_pairwise h)

theorem lem_sortRows_go_filter (t : Nat) (d : Int) (l : List Row) :
    ∀ acc : List Row, acc.Pairwise keyLe →
      (l.foldl (fun acc r => insertRow r acc) acc).filter (keyP t d)
        = acc.filter (keyP t d) ++ l.filter (keyP t d) := by
  induction l with
  | nil => intro acc h; simp
  | cons r l ih =>
    intro acc h
    show (l.foldl (fun acc r => insertRow r acc)
        (insertRow r acc)).filter (keyP t d) = _
    rw [ih (insertRow r acc) (lem_insertRow_pairwise h),
        lem_filter_insertRow t d h, List.filter_cons]
    cases hr : keyP t d r <;> simp

theorem lem_cutOf_of_nonneg {n : Nat} {f : Rat} (h0 : 0 ≤ f) (h1 : f ≤ 1) :
    cutOf n f = (Int.floor ((n : Rat) * f)).toNat := by
  have hx : 0 ≤ (n : Rat) * f := by positivity
  have hfl : 0 ≤ Int.floor ((n : Rat) * f) := Int.floor_nonneg.mpr hx
  have hle : Int.floor ((n : Rat) * f) ≤ (n : Int) := by
    have h' : (n : Rat) * f ≤ (n : Rat) * 1 :=
      mul_le_mul_of_nonneg_left h1 (by positivity)
    have := Int.floor_le_floor h'
    simpa using this
  unfold cutOf pyCut sliceIdx
  rw [if_neg (not_lt.mpr hx), if_neg (not_lt.mpr hfl)]
  omega

theorem lem_cutOf_le_cutOf {n : Nat} {f g : Rat} (h0 : 0 ≤ f) (hfg : f ≤ g)
    (h1 : g ≤ 1) : cutOf n f ≤ cutOf n g := by
  rw [lem_cutOf_of_nonneg h0 (le_trans hfg h1),
      lem_cutOf_of_nonneg (le_trans h0 hfg) h1]
  have := Int.floor_le_floor (mul_le_mul_of_nonneg_left hfg
    (by positivity : (0 : Rat) ≤ (n : Rat)))
  omega

theorem lem_cutOf_le_length (n : Nat) (f : Rat) : cutOf n f ≤ n := by
  unfold cutOf sliceIdx
  split <;> omega

theorem lem_seqLoop_some {g : List Row} {s : Int} {ts : List Int}
    (h : ∀ t ∈ ts, (pyIndex g t).isSome) :
    ∃ out, seqLoop g s ts = some out ∧ out.length = ts.length := by
  induction ts with
  | nil => exact ⟨[], rfl, rfl⟩
  | cons t ts ih =>
    obtain ⟨r, hr⟩ := Option.isSome_iff_exists.mp (h t (List.mem_cons_self t ts))
    obtain ⟨out, hout, hlen⟩ := ih fun u hu => h u (List.mem_cons_of_mem t hu)
    refine ⟨((pySliceRows g (t - s + 1) (t + 1)).map Row.feats, r.label) :: out,
      ?_, ?_⟩
    · show seqLoop g s (t :: ts) = _
      rw [seqLoop, hr, hout]
    · simp [hlen]

theorem lem_cleanup_fl (v : Val) : ∃ q : Rat, v.cleanup = .fl q := by
  cases v <;> exact ⟨_, rfl⟩

theorem lem_sub_nan (v : Val) : Val.sub .nan v = .nan := by
  cases v <;> rfl

theorem lem_apply_at (df : List Row) (stats : List FeatStats) (j c : Nat)
    (r : Row) (h : df[j]? = some r) (hc : c < numFeatures) :
    ∃ r', (applyStandardizer df stats)[j]? = some r'
      ∧ r'.feats[c]?
          = some (Val.cleanup (Val.divR
              (Val.sub (r.feats.getD c .nan) (stats.getD c dStat).mean)
              (stats.getD c dStat).std)) := by
  refine ⟨{ r with feats := (List.range numFeatures).map fun c =>
      (((r.feats.getD c .nan).sub (stats.getD c dStat).mean).divR
        (stats.getD c dStat).std).cleanup }, ?_, ?_⟩
  · show (df.map _)[j]? = _
    rw [List.getElem?_map, h, Option.map_some']
  · show ((List.range numFeatures).map _)[c]? = _
    rw [List.getElem?_map, List.getElem?_range hc, Option.map_some']

theorem lem_columnVals_const {train : List Row} {c : Nat} {q : Rat}
    (hconst : ∀ r ∈ train, r.feats.getD c .nan = .fl q) :
    columnVals train c = List.replicate train.length (.fl q) := by
  apply List.eq_replicate_iff.mpr
  refine ⟨by simp [columnVals], ?_⟩
  intro b hb
  rcases List.mem_map.mp hb with ⟨r, hr, rfl⟩
  rw [hconst r hr]
  rfl

theorem lem_finiteVals_replicate (n : Nat) (q : Rat) :
    finiteVals (List.replicate n (.fl q)) = List.replicate n q := by
  induction n with
  | zero => rfl
  | succ m ih =>
    simp only [List.replicate_succ, finiteVals, List.filterMap_cons] at ih ⊢
    rw [show Val.toRatQ (.fl q) = some q from rfl]
    rw [ih]

theorem lem_replicate_mean (n : Nat) (hn : n ≠ 0) (q : Rat) :
    (List.replicate n q).sum / ((List.replicate n q).length : Rat) = q := by
  have hq : ((n : Rat)) ≠ 0 := Nat.cast_ne_zero.mpr hn
  rw [List.sum_replicate, List.length_replicate, nsmul_eq_mul, mul_comm,
    mul_div_assoc, div_self hq, mul_one]

theorem lem_nanmean_const (n : Nat) (hn : n ≠ 0) (q : Rat) :
    nanmeanVal (List.replicate n (.fl q)) = .fl q := by
  unfold nanmeanVal
  rw [lem_finiteVals_replicate]
  rw [if_neg (by simpa using hn)]
  rw [lem_replicate_mean n hn q]

theorem lem_nanstd_const (sqrtR : Rat → Rat) (n : Nat) (hn : n ≠ 0) (q : Rat) :
    nanstdVal sqrtR (List.replicate n (.fl q)) = .fl (sqrtR 0) := by
  unfold nanstdVal
  rw [lem_finiteVals_replicate]
  rw [if_neg (by simpa using hn)]
  have hmap : (List.replicate n q).map (fun x => (x - q) ^ 2)
      = List.replicate n 0 := by
    rw [List.map_replicate]
    norm_num
  simp only [lem_replicate_mean n hn q]
  rw [hmap, List.sum_replicate, smul_zero, zero_div]

theorem lem_fit_const {sqrtR : Rat → Rat} {train : List Row} {c : Nat}
    (hsq : sqrtR 0 = 0) (hc : c < numFeatures) (hne : train ≠ [])
    (hconst : ∀ r ∈ train, r.feats.getD c .nan = .fl 5) :
    (fitStandardizer sqrtR train)[c]? = some ⟨.fl 5, 1⟩ := by
  have hn : train.length ≠ 0 := by simpa [List.length_eq_zero] using hne
  have hcol := lem_columnVals_const hconst
  show ((List.range numFeatures).map _)[c]? = _
  rw [List.getElem?_map, List.getElem?_range hc, Option.map_some']
  have hmean : nanmeanVal (columnVals train c) = .fl 5 := by
    rw [hcol]; exact lem_nanmean_const _ hn _
  have hstd : stdFloor sqrtR (columnVals train c) = 1 := by
    unfold stdFloor
    rw [hcol, lem_nanstd_const sqrtR _ hn, hsq]
    norm_num
  rw [hmean, hstd]

/-! ### Claim theorems -/

/-- Claim C1, as stated, is false at its own scenario: for the validation
accuracies [0.50, 0.51, 0.51, 0.51] with patience 2 the loop of
train_lstm.py lines 104-118 does not run exactly 3 epochs (epoch 2 improves
on 0.50 by more than the 1e-4 margin, so the two non-improving epochs are
epochs 3 and 4). -/
theorem C1_counterexample :
    (earlyStopRun [1/2, 51/100, 51/100, 51/100] 2).1 ≠ 3 := by
  norm_num [earlyStopRun, esRun]

/-- Claim C1, amended: the run over [0.50, 0.51, 0.51, 0.51] with patience 2
stops early after epoch 4 (epoch 1 and epoch 2 both improve, epochs 3 and 4
exhaust the patience of 2). -/
theorem C1_scenario_stops_after_epoch_four :
    earlyStopRun [1/2, 51/100, 51/100, 51/100] 2 = (4, true) := by
  norm_num [earlyStopRun, esRun]

/-- Claim C2: for every positive window length S and every group g, the
sequence builder emits exactly max(0, L - S + 1) sequences, the i-th pairing
the feature window of rows [i .. i+S-1] with the label of row S-1+i; in
particular Scenario A (2 tickers of 50 rows, seq_len 10) yields 41 sequences
per ticker and 82 in total. -/
theorem C2_sequence_builder (S : Nat) (hS : 0 < S) (g : List Row) :
    seqBuilderSpec S g
  ∧ (makeSequencesGroup 10 (groupOf scenarioAB 0)).length = 41
  ∧ (makeSequencesGroup 10 (groupOf scenarioAB 1)).length = 41
  ∧ (makeSequences scenarioAB 10).length = 82 := by
  refine ⟨⟨?_, ?_⟩, by decide, by decide, by decide⟩
  · show ((List.range' (S - 1) (g.length - (S - 1))).map _).length = _
    rw [List.length_map, List.length_range']
    omega
  · intro i hi
    have ht : S - 1 + i < g.length := by omega
    refine ⟨g[S - 1 + i], List.getElem?_eq_getElem ht, ?_⟩
    have hlt : i < g.length - (S - 1) := by omega
    show ((List.range' (S - 1) (g.length - (S - 1))).map _)[i]? = _
    rw [List.getElem?_map, List.getElem?_range' (S - 1) 1 hlt, Option.map_some']
    have harg : S - 1 + 1 * i = S - 1 + i := by omega
    rw [harg]
    have hsub : S - 1 + i - (S - 1) = i := by omega
    rw [hsub]
    have hget : g.getD (S - 1 + i) default = g[S - 1 + i] := by
      rw [List.getD_eq_getElem?_getD, List.getElem?_eq_getElem ht]
      rfl
    rw [hget]

/-- Claim C2 witness: the sequence-builder contract at S = 10 on the ticker-0
group of Scenario A. -/
theorem C2_sequence_builder_witness :
    seqBuilderSpec 10 (groupOf scenarioAB 0)
  ∧ (makeSequencesGroup 10 (groupOf scenarioAB 0)).length = 41
  ∧ (makeSequencesGroup 10 (groupOf scenarioAB 1)).length = 41
  ∧ (makeSequences scenarioAB 10).length = 82 :=
  C2_sequence_builder 10 (by decide) (groupOf scenarioAB 0)

/-- Claim C3: for fractions in (0,1) with sum below 1, time_split returns the
contiguous order-preserving slices at the floor cuts, the lengths sum to the
row count, and the slice lengths depend only on the row count and the
fractions. -/
theorem C3_time_split (df : List Row) (tf vf : Rat)
    (h1 : 0 < tf) (h2 : tf < 1) (h3 : 0 < vf) (h4 : tf + vf < 1) :
    timeSplitSpec df tf vf := by
  have hmono : cutOf df.length tf ≤ cutOf df.length (tf + vf) :=
    lem_cutOf_le_cutOf (by linarith) (by linarith) (by linarith)
  have hle : cutOf df.length (tf + vf) ≤ df.length :=
    lem_cutOf_le_length _ _
  have hc1 : cutOf df.length tf ≤ df.length := le_trans hmono hle
  have e1 : (timeSplit df tf vf).1 = df.take (cutOf df.length tf) := rfl
  have e2 : (timeSplit df tf vf).2.1
      = (df.take (cutOf df.length (tf + vf))).drop (cutOf df.length tf) := rfl
  have e3 : (timeSplit df tf vf).2.2
      = df.drop (cutOf df.length (tf + vf)) := rfl
  have l1 : (timeSplit df tf vf).1.length = cutOf df.length tf := by
    rw [e1, List.length_take, Nat.min_eq_left hc1]
  have l2 : (timeSplit df tf vf).2.1.length
      = cutOf df.length (tf + vf) - cutOf df.length tf := by
    rw [e2, List.length_drop, List.length_take, Nat.min_eq_left hle]
  have l3 : (timeSplit df tf vf).2.2.length
      = df.length - cutOf df.length (tf + vf) := by
    rw [e3, List.length_drop]
  refine ⟨e1, ?_, e3, l1, l2, l3, by omega, ?_, ?_⟩
  · rw [e2, List.drop_take]
  · show (df.take (cutOf df.length tf)
        ++ (df.take (cutOf df.length (tf + vf))).drop (cutOf df.length tf))
        ++ df.drop (cutOf df.length (tf + vf)) = df
    have hq : df.take (cutOf df.length tf)
        = (df.take (cutOf df.length (tf + vf))).take (cutOf df.length tf) := by
      rw [List.take_take, Nat.min_eq_left hmono]
    rw [hq, List.take_append_drop, List.take_append_drop]
  · intro df' hlen
    constructor
    · rw [l1]
      show (df'.take (cutOf df'.length tf)).length = _
      rw [List.length_take, hlen, Nat.min_eq_left hc1]
    constructor
    · rw [l2]
      show ((df'.take (cutOf df'.length (tf + vf))).drop
        (cutOf df'.length tf)).length = _
      rw [List.length_drop, List.length_take, hlen, Nat.min_eq_left hle]
    · rw [l3]
      show (df'.drop (cutOf df'.length (tf + vf))).length = _
      rw [List.length_drop, hlen]

/-- Claim C3 witness: the splitter contract on a concrete 10-row dataset with
the default fractions 0.7 and 0.15 (cuts at rows 7 and 8). -/
theorem C3_time_split_witness : timeSplitSpec wdfTen (7/10) (3/20) :=
  C3_time_split wdfTen (7/10) (3/20) (by norm_num) (by norm_num) (by norm_num)
    (by norm_num)

/-- Claim C4, as stated, is false on the code: with the train split constant
at 5.0 in feature 0 (so fit yields mean 5.0 and floored std 1.0), a
validation row whose feature-0 value is 6.0 standardizes to (6-5)/1 = 1.0,
not 0.0. -/
theorem C4_counterexample :
    (fitStandardizer (fun q => q) [cRow5])[0]? = some ⟨.fl 5, 1⟩
  ∧ ∃ r', (applyStandardizer [cRow6]
        (fitStandardizer (fun q => q) [cRow5]))[0]? = some r'
      ∧ r'.feats[0]? = some (.fl 1) ∧ r'.feats[0]? ≠ some (.fl 0) := by
  have hconst : ∀ r ∈ [cRow5], r.feats.getD 0 .nan = .fl 5 := by
    intro r hr
    rw [List.mem_singleton] at hr
    subst hr
    rfl
  have hfit := @lem_fit_const (fun q => q) [cRow5] 0 rfl (by decide) (by simp)
    hconst
  have hgetD : (fitStandardizer (fun q => q) [cRow5]).getD 0 dStat
      = ⟨.fl 5, 1⟩ := by
    rw [List.getD_eq_getElem?_getD, hfit]
    rfl
  obtain ⟨r', hr', hfeat⟩ := lem_apply_at [cRow6]
    (fitStandardizer (fun q => q) [cRow5]) 0 0 cRow6 rfl (by decide)
  have hv : cRow6.feats.getD 0 .nan = .fl 6 := rfl
  rw [hv, hgetD] at hfeat
  have hcomp : Val.cleanup (Val.divR (Val.sub (.fl 6) (.fl 5)) 1) = .fl 1 := by
    norm_num [Val.sub, Val.divR, Val.cleanup]
  refine ⟨hfit, r', hr', ?_, ?_⟩
  · rw [hfeat]
    rw [show (⟨Val.fl 5, 1⟩ : FeatStats).mean = Val.fl 5 from rfl,
        show (⟨Val.fl 5, 1⟩ : FeatStats).std = 1 from rfl, hcomp]
  · rw [hfeat]
    rw [show (⟨Val.fl 5, 1⟩ : FeatStats).mean = Val.fl 5 from rfl,
        show (⟨Val.fl 5, 1⟩ : FeatStats).std = 1 from rfl, hcomp]
    simp

/-- Claim C4, amended: for a feature constant at 5.0 across a nonempty train
split, fit yields mean 5.0 and std 1.0 (floor applied, using sqrt 0 = 0),
and apply with those stats yields 0.0 for that feature in every train row;
in a row of any slice a finite value v of the feature standardizes to
v - 5.0 (0.0 when v = 5.0), and a missing or infinite cell is recovered to
0.0 by the replace/fillna step. -/
theorem C4_constant_feature (sqrtR : Rat → Rat) (train : List Row) (c : Nat)
    (hsq : sqrtR 0 = 0) (hc : c < numFeatures) (hne : train ≠ [])
    (hconst : ∀ r ∈ train, r.feats.getD c .nan = .fl 5) :
    constFeatureSpec sqrtR train c := by
  have hfit := lem_fit_const hsq hc hne hconst
  have hgetD : (fitStandardizer sqrtR train).getD c dStat = ⟨.fl 5, 1⟩ := by
    rw [List.getD_eq_getElem?_getD, hfit]
    rfl
  have hcompute : Val.cleanup (Val.divR (Val.sub (.fl 5) (.fl 5)) 1)
      = .fl 0 := by
    norm_num [Val.sub, Val.divR, Val.cleanup]
  have happly : ∀ (df : List Row) (j : Nat) (r : Row), df[j]? = some r →
      r.feats.getD c .nan = .fl 5 →
      ∃ r', (applyStandardizer df (fitStandardizer sqrtR train))[j]? = some r'
        ∧ r'.feats[c]? = some (.fl 0) := by
    intro df j r hj hv
    obtain ⟨r', hr', hfeat⟩ :=
      lem_apply_at df (fitStandardizer sqrtR train) j c r hj hc
    refine ⟨r', hr', ?_⟩
    rw [hfeat, hv, hgetD]
    rw [show (⟨Val.fl 5, 1⟩ : FeatStats).mean = Val.fl 5 from rfl,
        show (⟨Val.fl 5, 1⟩ : FeatStats).std = 1 from rfl, hcompute]
  have happlyFin : ∀ (df : List Row) (j : Nat) (r : Row) (v : Rat),
      df[j]? = some r → r.feats.getD c .nan = .fl v →
      ∃ r', (applyStandardizer df (fitStandardizer sqrtR train))[j]? = some r'
        ∧ r'.feats[c]? = some (.fl (v - 5)) := by
    intro df j r v hj hv
    obtain ⟨r', hr', hfeat⟩ :=
      lem_apply_at df (fitStandardizer sqrtR train) j c r hj hc
    refine ⟨r', hr', ?_⟩
    rw [hfeat, hv, hgetD]
    rw [show (⟨Val.fl 5, 1⟩ : FeatStats).mean = Val.fl 5 from rfl,
        show (⟨Val.fl 5, 1⟩ : FeatStats).std = 1 from rfl]
    norm_num [Val.sub, Val.divR, Val.cleanup]
  have happlyBad : ∀ (df : List Row) (j : Nat) (r : Row), df[j]? = some r →
      (r.feats.getD c .nan = .nan ∨ r.feats.getD c .nan = .inf
        ∨ r.feats.getD c .nan = .ninf) →
      ∃ r', (applyStandardizer df (fitStandardizer sqrtR train))[j]? = some r'
        ∧ r'.feats[c]? = some (.fl 0) := by
    intro df j r hj hbad
    obtain ⟨r', hr', hfeat⟩ :=
      lem_apply_at df (fitStandardizer sqrtR train) j c r hj hc
    refine ⟨r', hr', ?_⟩
    rw [hfeat, hgetD]
    rw [show (⟨Val.fl 5, 1⟩ : FeatStats).mean = Val.fl 5 from rfl,
        show (⟨Val.fl 5, 1⟩ : FeatStats).std = 1 from rfl]
    rcases hbad with hb | hb | hb <;> rw [hb] <;>
      norm_num [Val.sub, Val.divR, Val.cleanup]
  refine ⟨hfit, ?_, happly, happlyFin, happlyBad⟩
  intro j r hj
  exact happly train j r hj (hconst r (List.getElem?_mem hj))

/-- Claim C4 witness: the amended constant-feature property at the concrete
one-row train split constant at 5.0, with the identity standing in for a
square root (it sends 0 to 0). -/
theorem C4_constant_feature_witness :
    constFeatureSpec (fun q => q) [cRow5] 0 :=
  C4_constant_feature (fun q => q) [cRow5] 0 rfl (by decide) (by simp)
    (by intro r hr; rw [List.mem_singleton] at hr; subst hr; rfl)

/-- Claim C5: the fitted statistics are a function of the train split alone;
two datasets of the same length that agree on the rows before the train cut
fit to identical statistics, whatever their validation and test rows
contain. -/
theorem C5_stats_read_train_only (sqrtR : Rat → Rat) (dfA dfB : List Row)
    (hlen : dfA.length = dfB.length)
    (hpre : ∀ i, i < cutOf dfA.length (7/10) → dfA[i]? = dfB[i]?) :
    trainStats sqrtR dfA = trainStats sqrtR dfB := by
  have e : ∀ df : List Row, trainSplitOf df
      = df.take (cutOf df.length (7/10)) := fun df => rfl
  have htake : dfA.take (cutOf dfA.length (7/10))
      = dfB.take (cutOf dfB.length (7/10)) := by
    rw [← hlen]
    apply List.ext_getElem?
    intro i
    by_cases hi : i < cutOf dfA.length (7/10)
    · rw [List.getElem?_take_of_lt hi, List.getElem?_take_of_lt hi]
      exact hpre i hi
    · rw [List.getElem?_eq_none, List.getElem?_eq_none]
      · exact le_trans (Nat.min_le_left _ _) (Nat.not_lt.mp hi) |>.trans_eq'
          (List.length_take _ _)
      · exact le_trans (Nat.min_le_left _ _) (Nat.not_lt.mp hi) |>.trans_eq'
          (List.length_take _ _)
  unfold trainStats
  rw [e dfA, e dfB, htake]

/-- Claim C5 witness: two concrete 3-row datasets (train cut at row 2) that
differ only in the last row fit to the same statistics. -/
theorem C5_stats_read_train_only_witness :
    trainStats (fun q => q) [wRowC 0 1, wRowC 1 2, wRowC 2 3]
      = trainStats (fun q => q) [wRowC 0 1, wRowC 1 2, wRowC 2 999] := by
  apply C5_stats_read_train_only (fun q => q)
    [wRowC 0 1, wRowC 1 2, wRowC 2 3] [wRowC 0 1, wRowC 1 2, wRowC 2 999] rfl
  intro i hi
  have hc : cutOf (3 : Nat) (7/10) = 2 := by
    rw [lem_cutOf_of_nonneg (by norm_num) (by norm_num)]
    norm_num
    rfl
  have hi2 : i < 2 := by simpa [hc] using hi
  interval_cases i <;> rfl

/-- Claim C6: load_dataset output is globally sorted by (ticker asc, date
asc), and the rows of any one (ticker, date) key appear in the output in
their original relative order (stable tie-break over the filtered input). -/
theorem C6_load_dataset_sorted_stable (tickers : Option (List Nat))
    (rows : List Row) :
    (loadDataset tickers rows).Pairwise keyLe
  ∧ ∀ (t : Nat) (d : Int),
      (loadDataset tickers rows).filter (keyP t d)
        = (preFiltered tickers rows).filter (keyP t d) := by
  constructor
  · exact lem_sortRows_go_pairwise _ [] List.Pairwise.nil
  · intro t d
    show ((preFiltered tickers rows).foldl
        (fun acc r => insertRow r acc) []).filter (keyP t d) = _
    rw [lem_sortRows_go_filter t d _ [] List.Pairwise.nil]
    rfl

/-- Claim C7: apply_standardizer is total, length-preserving, maps each
feature cell to (value - mean)/std followed by the local recovery, so every
output cell is a finite number and a missing input becomes 0; non-feature
columns are untouched. -/
theorem C7_apply_recovers_locally (df : List Row) (stats : List FeatStats)
    (j : Nat) (r : Row) (h : df[j]? = some r) : applySpec df stats j r := by
  constructor
  · show (df.map _).length = _
    rw [List.length_map]
  · refine ⟨{ r with feats := (List.range numFeatures).map fun c =>
        (((r.feats.getD c .nan).sub (stats.getD c dStat).mean).divR
          (stats.getD c dStat).std).cleanup }, ?_, rfl, rfl, rfl, ?_, ?_⟩
    · show (df.map _)[j]? = _
      rw [List.getElem?_map, h, Option.map_some']
    · show ((List.range numFeatures).map _).length = _
      rw [List.length_map, List.length_range]
    · intro c hc
      have hval : ((List.range numFeatures).map fun c =>
          (((r.feats.getD c .nan).sub (stats.getD c dStat).mean).divR
            (stats.getD c dStat).std).cleanup)[c]?
          = some (Val.cleanup (Val.divR
              (Val.sub (r.feats.getD c .nan) (stats.getD c dStat).mean)
              (stats.getD c dStat).std)) := by
        rw [List.getElem?_map, List.getElem?_range hc, Option.map_some']
      refine ⟨hval, ?_, ?_⟩
      · obtain ⟨q, hq⟩ := lem_cleanup_fl (Val.divR
            (Val.sub (r.feats.getD c .nan) (stats.getD c dStat).mean)
            (stats.getD c dStat).std)
        exact ⟨q, by rw [hval, hq]⟩
      · intro hnan
        rw [hval, hnan, lem_sub_nan]
        rfl

/-- Claim C7 witness: the apply contract at a concrete one-row dataset with
mean-0/std-1 statistics. -/
theorem C7_apply_recovers_locally_witness :
    applySpec [wRowOne] wStatsOne 0 wRowOne :=
  C7_apply_recovers_locally [wRowOne] wStatsOne 0 wRowOne rfl

/-- Claim C8: train_lstm.py fails with its insufficient-data error (the
RuntimeError of line 89, InsufficientDataError in the spec's taxonomy) if
and only if windowing leaves zero train or zero validation sequences, and in
that case the outcome does not depend on the per-epoch accuracies: the
failure is decided before any epoch runs. -/
theorem C8_insufficient_data (sqrtR : Rat → Rat) (oracle oracle' : Nat → Rat)
    (seqLen : Nat) (patience : Int) (epochs : Nat)
    (tickers : Option (List Nat)) (rows : List Row) :
    (trainMain sqrtR oracle seqLen patience epochs tickers rows
        = .error .insufficientData
      ↔ ((trainPrepared sqrtR seqLen tickers rows).1.length = 0
         ∨ (trainPrepared sqrtR seqLen tickers rows).2.1.length = 0))
  ∧ ((trainPrepared sqrtR seqLen tickers rows).1.length = 0
       ∨ (trainPrepared sqrtR seqLen tickers rows).2.1.length = 0 →
      trainMain sqrtR oracle seqLen patience epochs tickers rows
        = trainMain sqrtR oracle' seqLen patience epochs tickers rows) := by
  have key : ∀ o : Nat → Rat, trainMain sqrtR o seqLen patience epochs tickers rows
      = if (trainPrepared sqrtR seqLen tickers rows).1.length = 0
           ∨ (trainPrepared sqrtR seqLen tickers rows).2.1.length = 0
        then Except.error TrainErr.insufficientData
        else Except.ok
          { epochsRun :=
              (earlyStopRun ((List.range epochs).map fun e => o (e + 1)) patience).1
            earlyStopped :=
              (earlyStopRun ((List.range epochs).map fun e => o (e + 1)) patience).2
            nTrain := (trainPrepared sqrtR seqLen tickers rows).1.length
            nVal := (trainPrepared sqrtR seqLen tickers rows).2.1.length
            nTest := (trainPrepared sqrtR seqLen tickers rows).2.2.length } :=
    fun o => rfl
  by_cases h : (trainPrepared sqrtR seqLen tickers rows).1.length = 0
      ∨ (trainPrepared sqrtR seqLen tickers rows).2.1.length = 0
  · rw [key oracle, key oracle', if_pos h, if_pos h]
    exact ⟨⟨fun _ => h, fun _ => rfl⟩, fun _ => rfl⟩
  · rw [key oracle, if_neg h]
    exact ⟨⟨fun he => absurd he (by simp), fun hh => absurd hh h⟩,
           fun hh => absurd hh h⟩

/-- Claim C9, as stated, is false on the code: time_split performs no
fraction validation and raises nothing; with the invalid train fraction 3/2
it quietly returns the whole 4-row dataset as train and empty validation and
test slices. -/
theorem C9_counterexample :
    timeSplit rowsFour (3/2) (3/20) = (rowsFour, [], []) := by
  have hlen : rowsFour.length = 4 := rfl
  have h1 : cutOf rowsFour.length (3/2) = 4 := by
    rw [hlen]
    norm_num [cutOf, pyCut, sliceIdx]
  have h2 : cutOf rowsFour.length (3/2 + 3/20) = 4 := by
    rw [hlen]
    norm_num [cutOf, pyCut, sliceIdx]
  show (rowsFour.take (cutOf rowsFour.length (3/2)),
        (rowsFour.take (cutOf rowsFour.length (3/2 + 3/20))).drop
          (cutOf rowsFour.length (3/2)),
        rowsFour.drop (cutOf rowsFour.length (3/2 + 3/20))) = (rowsFour, [], [])
  rw [h1, h2, List.take_of_length_le (by omega),
      List.drop_eq_nil_of_le (by omega)]

/-- Claim C9, amended: the code contains no ConfigError and no input
validation. time_split is total for every fraction pair and slices at
`int(N * frac)` under Python slice-bound resolution: the cut never exceeds
the row count, the three slices partition the dataset in order whenever the
first cut is at most the second, a train fraction of at least 1 floods the
whole dataset into the train slice, a train fraction of at most -1 leaves
it empty, and a negative cut counts from the end (train_frac = -1/2 on 4
rows keeps the first 2 rows as train). A non-positive seq_len is likewise
not validated: at seq_len = 0 the per-group loop of make_sequences runs
`range(-1, L)` to completion, emitting L + 1 empty-window sequences instead
of raising anything. -/
theorem C9_time_split_no_validation (df : List Row) (tf vf : Rat) :
    (timeSplit df tf vf).1 = df.take (cutOf df.length tf)
  ∧ (timeSplit df tf vf).2.1
      = (df.take (cutOf df.length (tf + vf))).drop (cutOf df.length tf)
  ∧ (timeSplit df tf vf).2.2 = df.drop (cutOf df.length (tf + vf))
  ∧ cutOf df.length tf ≤ df.length
  ∧ (cutOf df.length tf ≤ cutOf df.length (tf + vf) →
      (timeSplit df tf vf).1 ++ (timeSplit df tf vf).2.1
        ++ (timeSplit df tf vf).2.2 = df)
  ∧ (1 ≤ tf → (timeSplit df tf vf).1 = df)
  ∧ (tf ≤ -1 → (timeSplit df tf vf).1 = [])
  ∧ timeSplit rowsFour (-(1/2)) (3/20)
      = (rowsFour.take 2, (rowsFour.take 3).drop 2, rowsFour.drop 3)
  ∧ (∀ g : List Row, g ≠ [] →
      ∃ out, makeSequencesGroupI 0 g = some out ∧ out.length = g.length + 1)
  ∧ makeSequencesGroupI 0 [mkRowA 0, mkRowA 1]
      = some [(([] : List (List Val)), .fl 1), ([], .fl 1), ([], .fl 1)] := by
  refine ⟨rfl, rfl, rfl, lem_cutOf_le_length _ _, ?_, ?_, ?_, ?_, ?_, by decide⟩
  · intro hle
    show (df.take (cutOf df.length tf)
        ++ (df.take (cutOf df.length (tf + vf))).drop (cutOf df.length tf))
        ++ df.drop (cutOf df.length (tf + vf)) = df
    have h1 : df.take (cutOf df.length tf)
        = (df.take (cutOf df.length (tf + vf))).take (cutOf df.length tf) := by
      rw [List.take_take, Nat.min_eq_left hle]
    rw [h1, List.take_append_drop, List.take_append_drop]
  · intro htf
    show df.take (cutOf df.length tf) = df
    have h0 : ((df.length : Rat)) * 1 ≤ (df.length : Rat) * tf :=
      mul_le_mul_of_nonneg_left htf (by positivity)
    have hx : 0 ≤ (df.length : Rat) * tf :=
      le_trans (by positivity : (0 : Rat) ≤ (df.length : Rat) * 1) h0
    have hfl : (df.length : Int) ≤ Int.floor ((df.length : Rat) * tf) := by
      have := Int.floor_le_floor h0
      simpa using this
    have hcut : cutOf df.length tf = df.length := by
      unfold cutOf pyCut sliceIdx
      rw [if_neg (not_lt.mpr hx), if_neg (by omega)]
      omega
    rw [hcut, List.take_length]
  · intro htf
    show df.take (cutOf df.length tf) = []
    rcases Nat.eq_zero_or_pos df.length with hn | hn
    · simp [List.length_eq_zero.mp hn]
    · have hq : (df.length : Rat) * tf ≤ (df.length : Rat) * (-1) :=
        mul_le_mul_of_nonneg_left htf (by positivity)
      rw [mul_neg_one] at hq
      have hpos : (0 : Rat) < (df.length : Rat) := by exact_mod_cast hn
      have hlt0 : (df.length : Rat) * tf < 0 := by linarith
      have hceil : Int.ceil ((df.length : Rat) * tf)
          ≤ -(df.length : Int) := by
        apply Int.ceil_le.mpr
        push_cast
        linarith
      have hcut : cutOf df.length tf = 0 := by
        unfold cutOf pyCut sliceIdx
        rw [if_pos hlt0, if_pos (by omega)]
        omega
      rw [hcut]
      rfl
  · have hlen : rowsFour.length = 4 := rfl
    have h1 : cutOf rowsFour.length (-(1/2)) = 2 := by
      rw [hlen]
      have hx : ((4 : Nat) : Rat) * (-(1/2)) = -2 := by norm_num
      have hcl : Int.ceil ((-2 : Rat)) = -2 := by norm_cast
      unfold cutOf pyCut sliceIdx
      rw [hx, if_pos (show (-2 : Rat) < 0 by norm_num), hcl,
          if_pos (show (-2 : Int) < 0 by decide)]
      decide
    have h2 : cutOf rowsFour.length (-(1/2) + 3/20) = 3 := by
      rw [hlen]
      have hx : ((4 : Nat) : Rat) * (-(1/2) + 3/20) = -(7/5) := by norm_num
      have hcl : Int.ceil ((-(7/5) : Rat)) = -1 := by
        rw [Int.ceil_eq_iff]
        norm_num
      unfold cutOf pyCut sliceIdx
      rw [hx, if_pos (show (-(7/5) : Rat) < 0 by norm_num), hcl,
          if_pos (show (-1 : Int) < 0 by decide)]
      decide
    show (rowsFour.take (cutOf rowsFour.length (-(1/2))),
          (rowsFour.take (cutOf rowsFour.length (-(1/2) + 3/20))).drop
            (cutOf rowsFour.length (-(1/2))),
          rowsFour.drop (cutOf rowsFour.length (-(1/2) + 3/20)))
        = (rowsFour.take 2, (rowsFour.take 3).drop 2, rowsFour.drop 3)
    rw [h1, h2]
  · intro g hg
    have hL : 0 < g.length := List.length_pos.mpr hg
    have hmem : ∀ t ∈ intRange ((0 : Int) - 1) g.length,
        (pyIndex g t).isSome := by
      intro t ht
      rcases List.mem_map.mp ht with ⟨k, hk, rfl⟩
      have hk' := List.mem_range.mp hk
      unfold pyIndex
      by_cases h0 : ((0 : Int) - 1) + k < 0
      · rw [if_pos h0, if_neg (by omega), List.getElem?_eq_getElem (by omega)]
        rfl
      · rw [if_neg h0, List.getElem?_eq_getElem (by omega)]
        rfl
    obtain ⟨out, hout, hlen'⟩ := lem_seqLoop_some hmem
    refine ⟨out, hout, ?_⟩
    rw [hlen']
    show ((List.range (((g.length : Int) - ((0 : Int) - 1)).toNat)).map
        fun k : Nat => ((0 : Int) - 1) + (k : Int)).length = g.length + 1
    rw [List.length_map, List.length_range]
    omega

/-- Claim C10: when the persisted metadata carries a seq_len, the predictor
windows with it and the operator-supplied value has no effect on the
prediction output; the supplied value is consulted exactly when the metadata
lacks one. -/
theorem C10_predict_uses_metadata_seq_len (sigmoid : Rat → Rat)
    (net : List Seqe → List Rat) (s : Nat) (stats : List FeatStats)
    (tickers : Option (List Nat)) (a a' : Nat) (rows : List Row) :
    predictMain sigmoid net (some s) stats tickers a rows
      = predictMain sigmoid net (some s) stats tickers a' rows
  ∧ predictMain sigmoid net none stats tickers a rows
      = predictMain sigmoid net (some a) stats tickers a rows :=
  ⟨rfl, rfl⟩
